import Mathlib

/-!
# Verification of the performance-attribution engine

Shallow embedding of the attribution core of this portfolio-analysis
application (`src/client/views/AttributionView.tsx`), together with proofs
about its ranking/summarization table, calendar aggregation, risk metrics
and cash handling.  JavaScript numbers are modelled by `ℚ` (the properties
at stake are algebraic, not about float rounding); the `Math.sqrt` in the
Sharpe ratio is modelled by `Real.sqrt`.  `Array.prototype.sort` is stable
per the ECMAScript specification and its comparators here are total
preorders on numbers, so it is modelled by a stable insertion sort.
-/

namespace Attribution

/-- Model of the JavaScript `Date` values as used by the view: `getTime()`
for ordering, `getFullYear()` and `getMonth()` (always `0..11`) for
calendar bucketing. -/

structure JSDate where
  time : Int
  year : Int
  month : Fin 12
deriving Repr, DecidableEq

/-- The `PortfolioItem` rows (from `../types`) as consumed by the attribution
view: ticker, observation date, weight (percentage points, 0–100 scale),
optional precomputed period return and contribution. -/

structure PortfolioItem where
  ticker : String
  date : JSDate
  weight : ℚ
  returnPct : Option ℚ
  contribution : Option ℚ
deriving Repr, DecidableEq

/-- The `TableItem` record (the per-ticker bucket result fed to `AttributionTable`). -/

structure TableItem where
  ticker : String
  weight : ℚ
  returnPct : Option ℚ
  contribution : ℚ
deriving Repr, DecidableEq

/-- Model of `item.contribution || 0` on an optional field. -/

def contribVal (i : PortfolioItem) : ℚ := i.contribution.getD 0

/-- Model of `item.returnPct || 0` on an optional field. -/

def returnVal (i : PortfolioItem) : ℚ := i.returnPct.getD 0

/-- Model of `list.reduce((acc, x) => acc + f x, 0)`. -/

def sumBy (f : α → ℚ) (l : List α) : ℚ := l.foldl (fun s x => s + f x) 0

/-! ## Stable sorts

`items.sort((a, b) => b.contribution - a.contribution)` (descending) and
`items.sort((a, b) => a.contribution - b.contribution)` (ascending) are
stable sorts under a total preorder, hence equal to the following stable
insertion sorts. -/

/-- Insert `x` (which originally precedes every element of the list) into a
descending-sorted list, keeping ties in original order. -/

def insertDesc (x : TableItem) : List TableItem → List TableItem
  | [] => [x]
  | y :: ys => if y.contribution ≤ x.contribution then x :: y :: ys else y :: insertDesc x ys

/-- Stable sort by contribution, descending. -/

def sortDesc : List TableItem → List TableItem
  | [] => []
  | x :: xs => insertDesc x (sortDesc xs)

/-- Insert `x` (which originally precedes every element of the list) into an
ascending-sorted list, keeping ties in original order. -/

def insertAsc (x : TableItem) : List TableItem → List TableItem
  | [] => [x]
  | y :: ys => if x.contribution ≤ y.contribution then x :: y :: ys else y :: insertAsc x ys

/-- Stable sort by contribution, ascending. -/

def sortAsc : List TableItem → List TableItem
  | [] => []
  | x :: xs => insertAsc x (sortAsc xs)

/-! ## The ranking/summarization table (`AttributionTable`, current version,
`src/client/views/AttributionView.tsx` lines 101–120 and its rendered
footer rows 190–217) -/

/-- Result record of the current `AttributionTable` computation. -/

structure RankedTable where
  topContributors : List TableItem
  topContribWeight : ℚ
  topContribContribution : ℚ
  topDisruptors : List TableItem
  topDisruptWeight : ℚ
  topDisruptContribution : ℚ
  othersContribution : ℚ
  /-- displayed Other Holdings weight: `100 - topContribSum.weight - topDisruptSum.weight` -/
  residualOtherWeight : ℚ
  othersReturn : ℚ
  totalContribution : ℚ
deriving Repr, DecidableEq

/-- The current `AttributionTable` aggregation logic (lines 101–120). -/

def attributionTable (items : List TableItem) : RankedTable :=
  let positives := sortDesc (items.filter (fun i => decide (0 ≤ i.contribution)))
  let negatives := sortAsc (items.filter (fun i => decide (i.contribution < 0)))
  let topContributors := positives.take 5
  let topDisruptors := negatives.take 5
  let topTickers := (topContributors ++ topDisruptors).map TableItem.ticker
  let others := items.filter (fun i => decide (i.ticker ∉ topTickers))
  let othersContribution := sumBy TableItem.contribution others
  let topContribWeight := sumBy TableItem.weight topContributors
  let topDisruptWeight := sumBy TableItem.weight topDisruptors
  let residualOtherWeight := 100 - topContribWeight - topDisruptWeight
  { topContributors := topContributors
    topContribWeight := topContribWeight
    topContribContribution := sumBy TableItem.contribution topContributors
    topDisruptors := topDisruptors
    topDisruptWeight := topDisruptWeight
    topDisruptContribution := sumBy TableItem.contribution topDisruptors
    othersContribution := othersContribution
    residualOtherWeight := residualOtherWeight
    othersReturn :=
      if residualOtherWeight > 1/1000 then othersContribution * 100 / residualOtherWeight else 0
    totalContribution := sumBy TableItem.contribution items }

/-- Result record of the older `AttributionTable` (second embedded copy of
the component, lines 1180–1191): the Other Holdings row displays the
literal sum of the remaining tickers' weights. -/

structure RankedTableOld where
  topContributors : List TableItem
  topDisruptors : List TableItem
  /-- displayed Other Holdings weight: `othersSum.weight` -/
  othersWeight : ℚ
  othersContribution : ℚ
  othersReturn : ℚ
  totalWeight : ℚ
  totalContribution : ℚ
deriving Repr, DecidableEq

/-- The older `AttributionTable` aggregation logic (lines 1180–1191). -/

def attributionTableOld (items : List TableItem) : RankedTableOld :=
  let positives := sortDesc (items.filter (fun i => decide (0 ≤ i.contribution)))
  let negatives := sortAsc (items.filter (fun i => decide (i.contribution < 0)))
  let topContributors := positives.take 5
  let topDisruptors := negatives.take 5
  let topTickers := (topContributors ++ topDisruptors).map TableItem.ticker
  let others := items.filter (fun i => decide (i.ticker ∉ topTickers))
  let othersWeight := sumBy TableItem.weight others
  let othersContribution := sumBy TableItem.contribution others
  { topContributors := topContributors
    topDisruptors := topDisruptors
    othersWeight := othersWeight
    othersContribution := othersContribution
    othersReturn := if othersWeight > 0 then othersContribution / othersWeight * 100 else 0
    totalWeight := sumBy TableItem.weight items
    totalContribution := sumBy TableItem.contribution items }

/-! ## C6: the Other Holdings displayed return -/

/-- Six distinct positive contributors with weights summing to 60: the item
with the smallest contribution falls into Other Holdings. -/

def c6Items : List TableItem :=
  [{ ticker := "A", weight := 10, returnPct := none, contribution := 6 },
   { ticker := "B", weight := 10, returnPct := none, contribution := 5 },
   { ticker := "C", weight := 10, returnPct := none, contribution := 4 },
   { ticker := "D", weight := 10, returnPct := none, contribution := 3 },
   { ticker := "E", weight := 10, returnPct := none, contribution := 2 },
   { ticker := "F", weight := 10, returnPct := none, contribution := 1 }]

/-! ## C10: the two embedded `AttributionTable` implementations -/

/-- A list with a duplicated ticker `A` straddling the top-5 cut: total
weight is exactly 100, yet the two implementations report different Other
Holdings weights (the second `A` row is excluded from `others` by the
ticker-set test without being part of the top lists). -/

def dupItems : List TableItem :=
  [{ ticker := "A", weight := 10, returnPct := none, contribution := 6 },
   { ticker := "A", weight := 50, returnPct := none, contribution := 1 },
   { ticker := "B", weight := 10, returnPct := none, contribution := 5 },
   { ticker := "C", weight := 10, returnPct := none, contribution := 4 },
   { ticker := "D", weight := 10, returnPct := none, contribution := 3 },
   { ticker := "E", weight := 10, returnPct := none, contribution := 2 }]

/-- Distinct-ticker list for the C10 witness: weights sum to 90, so the two
implementations disagree by exactly 10. -/

def c10Items : List TableItem :=
  [{ ticker := "A", weight := 40, returnPct := none, contribution := 6 },
   { ticker := "B", weight := 30, returnPct := none, contribution := -2 },
   { ticker := "C", weight := 20, returnPct := none, contribution := 1 }]

/-! ## Calendar aggregation (`aggregatePeriodData`, lines 225–274) -/

/-- Stable insertion by date for `items.sort((a, b) => dateA - dateB)`. -/

def insertByTime (x : PortfolioItem) : List PortfolioItem → List PortfolioItem
  | [] => [x]
  | y :: ys => if x.date.time ≤ y.date.time then x :: y :: ys else y :: insertByTime x ys

/-- Stable sort of portfolio items by date ascending. -/

def sortByDateAsc : List PortfolioItem → List PortfolioItem
  | [] => []
  | x :: xs => insertByTime x (sortByDateAsc xs)

/-- Model of the `Object.keys` ordering: tickers in order of first occurrence. -/

def dedupFirstAux : List String → List String → List String
  | [], _ => []
  | x :: xs, seen =>
    if x ∈ seen then dedupFirstAux xs seen else x :: dedupFirstAux xs (x :: seen)

/-- Aggregation of one ticker's grouped rows: end-of-period weight (last
date), summed contribution, weighted-average return with a `> 0` guard. -/

def aggregateGroup (t : String) (items : List PortfolioItem) : TableItem :=
  let sorted := sortByDateAsc items
  let endOfPeriodWeight := ((sorted.getLast?).map PortfolioItem.weight).getD 0
  let totalContrib := sumBy contribVal sorted
  let weightTimesReturnSum := sumBy (fun i => i.weight * returnVal i) sorted
  let weightSum := sumBy PortfolioItem.weight sorted
  let weightedAvgReturn := if weightSum > 0 then weightTimesReturnSum / weightSum else 0
  { ticker := t
    weight := endOfPeriodWeight
    returnPct := some weightedAvgReturn
    contribution := totalContrib }

/-- The `aggregatePeriodData` function: group rows by ticker (first-occurrence order) and
aggregate each group. -/

def aggregatePeriodData (data : List PortfolioItem) : List TableItem :=
  (dedupFirstAux (data.map PortfolioItem.ticker) []).map
    (fun t => aggregateGroup t (data.filter (fun d => decide (d.ticker = t))))

/-- The period row used to refute C2's unguarded return formula: a single
entry with negative weight. -/

def negWeightItem : PortfolioItem :=
  { ticker := "A", date := { time := 0, year := 2024, month := 0 },
    weight := -50, returnPct := some 10, contribution := some 1 }

/-- Two-row single-ticker dataset for the C2 witness. -/

def c2Row1 : PortfolioItem :=
  { ticker := "A", date := { time := 10, year := 2024, month := 0 },
    weight := 40, returnPct := some 2, contribution := some (4/5) }

/-- Second, later-dated row of the C2 witness dataset. -/

def c2Row2 : PortfolioItem :=
  { ticker := "A", date := { time := 20, year := 2024, month := 1 },
    weight := 60, returnPct := some (-1), contribution := some (-3/5) }

/-! ## The contribution heatmap matrix (`matrixData`, lines 498–513) and its
hyphen rendering (lines 930–941) -/

/-- The entries of one ticker's history falling in month `m` of year `y`. -/

def monthlyEntries (history : List PortfolioItem) (y : Int) (m : Fin 12) :
    List PortfolioItem :=
  history.filter (fun h => decide (h.date.month = m ∧ h.date.year = y))

/-- The cell `row[key]` of the matrix: the monthly matrix cell, `null` (here `none`) when the
ticker has no entry in the bucket, otherwise the summed contribution. -/

def monthlyCell (history : List PortfolioItem) (y : Int) (m : Fin 12) : Option ℚ :=
  if (monthlyEntries history y m).length > 0
  then some (sumBy contribVal (monthlyEntries history y m))
  else none

/-- The cell `row[w-key]`: the maximum weight among the bucket's entries, 0 if none. -/

def monthlyMaxWeight (history : List PortfolioItem) (y : Int) (m : Fin 12) : ℚ :=
  match (monthlyEntries history y m).map PortfolioItem.weight with
  | [] => 0
  | w :: ws => ws.foldl max w

/-- The cell-rendering decision (lines 930–941): a hyphen is shown when the
cell is `null`, or when both the value and the bucket's max weight are below
the `0.0001` tolerance. -/

def showHyphen (history : List PortfolioItem) (y : Int) (m : Fin 12) : Bool :=
  match monthlyCell history y m with
  | none => true
  | some v => decide (|v| < 1/10000) && decide (monthlyMaxWeight history y m < 1/10000)

/-- Single-ticker three-month dataset for the C4 witness. -/

def c4Data : List PortfolioItem :=
  [{ ticker := "A", date := { time := 1, year := 2024, month := 0 },
     weight := 50, returnPct := some 2, contribution := some 1 },
   { ticker := "A", date := { time := 2, year := 2024, month := 1 },
     weight := 50, returnPct := some (-2), contribution := some (-1) },
   { ticker := "A", date := { time := 3, year := 2024, month := 4 },
     weight := 60, returnPct := some 5, contribution := some 3 }]

/-! ## C9: the no-data sentinel versus a flat position -/

/-- History used against C9's rendering clause: a genuinely flat position in
January (zero weight, zero contribution) and a live position in February. -/

def c9Hist : List PortfolioItem :=
  [{ ticker := "Z", date := { time := 1, year := 2024, month := 0 },
     weight := 0, returnPct := some 0, contribution := some 0 },
   { ticker := "Z", date := { time := 2, year := 2024, month := 1 },
     weight := 50, returnPct := some 4, contribution := some 2 }]

/-! ## Risk metrics: beta (`tickerStats`, lines 304–379) -/

/-- Model of `(series.length || 1)` — the denominator guard used throughout
`tickerStats`. -/

def lenGuard (l : List ℚ) : ℚ := if l.length = 0 then 1 else (l.length : ℚ)

/-- The means `portMean` / `meanContrib`: sum divided by the guarded length. -/

def seriesMean (l : List ℚ) : ℚ := sumBy id l / lenGuard l

/-- The variances `portVariance` / `varianceContrib`: population variance with the
guarded length. -/

def seriesVariance (l : List ℚ) : ℚ :=
  sumBy (fun b => (b - seriesMean l) ^ 2) l / lenGuard l

/-- The index loop computing the covariance of the two series, divided by
the guarded portfolio length. -/

def covarianceLoop (tick port : List ℚ) : ℚ :=
  ((tick.zip port).foldl
      (fun s p => s + (p.1 - seriesMean tick) * (p.2 - seriesMean port)) 0)
    / lenGuard port

/-- Model of `beta = portVariance !== 0 ? covariance / portVariance : 0`. -/

def betaOf (tick port : List ℚ) : ℚ :=
  if seriesVariance port ≠ 0 then covarianceLoop tick port / seriesVariance port else 0

/-- The portfolio's monthly contribution series: for each month, the summed
contribution of all rows falling in it. -/

def portSeries (months : List JSDate) (data : List PortfolioItem) : List ℚ :=
  months.map (fun mo => sumBy contribVal (data.filter (fun d =>
    decide (d.date.year = mo.year ∧ d.date.month = mo.month))))

/-- One ticker's monthly contribution series: the first matching row's
contribution per month, 0 for months with no entry. -/

def tickerSeries (months : List JSDate) (history : List PortfolioItem) : List ℚ :=
  months.map (fun mo =>
    match history.find? (fun d =>
        decide (d.date.year = mo.year ∧ d.date.month = mo.month)) with
    | some e => contribVal e
    | none => 0)

/-- The beta displayed for ticker `t` by `tickerStats`. -/

def computedBeta (months : List JSDate) (data : List PortfolioItem)
    (t : String) : ℚ :=
  betaOf (tickerSeries months (data.filter (fun d => decide (d.ticker = t))))
    (portSeries months data)

/-- Textbook mean (sum over true length). -/

def specMean (l : List ℚ) : ℚ := l.sum / l.length

/-- Textbook population variance (divide by N). -/

def specVar (l : List ℚ) : ℚ := ((l.map (fun x => (x - specMean l) ^ 2)).sum) / l.length

/-- Textbook covariance of two equally long series (divide by N). -/

def specCov (a b : List ℚ) : ℚ :=
  (((a.zip b).map (fun p => (p.1 - specMean a) * (p.2 - specMean b))).sum) / b.length

/-- Two-month span and two-row dataset for the C8 witness. -/

def c8Months : List JSDate :=
  [{ time := 0, year := 2024, month := 0 }, { time := 1, year := 2024, month := 1 }]

/-- Dataset giving the portfolio series `[1, 3]` (nonzero variance). -/

def c8Data : List PortfolioItem :=
  [{ ticker := "A", date := { time := 0, year := 2024, month := 0 },
     weight := 50, returnPct := some 2, contribution := some 1 },
   { ticker := "A", date := { time := 1, year := 2024, month := 1 },
     weight := 50, returnPct := some 6, contribution := some 3 }]

/-! ## C3: the designated cash ticker -/

/-- Whether `pat` begins the character list (helper for the substring test). -/

def leadsWith : List Char → List Char → Bool
  | [], _ => true
  | _ :: _, [] => false
  | p :: ps, c :: cs => (p == c) && leadsWith ps cs

/-- Some suffix of the character list begins with `pat`. -/

def hasSeq (pat : List Char) : List Char → Bool
  | [] => leadsWith pat []
  | c :: cs => leadsWith pat (c :: cs) || hasSeq pat cs

/-- Model of `d.ticker.toUpperCase().includes('CASH')` — the client's cash test
(lines 1003–1006 and peers). -/

def includesCASH (s : String) : Bool :=
  hasSeq ['C', 'A', 'S', 'H'] (s.data.map Char.toUpper)

/-- The data fed to one monthly attribution table (lines 1003–1008): rows of
the month with cash tickers excluded. -/

def monthlyTableData (data : List PortfolioItem) (y : Int) (m : Fin 12) :
    List PortfolioItem :=
  data.filter (fun d =>
    decide (d.date.year = y ∧ d.date.month = m) && ! includesCASH d.ticker)

/-- Modelled from the spec: the server-side Period Return Calculator is not
under `src/` (only `src/server/README.md` documents it). Per the spec, the
designated cash ticker `$CASH$` is forced to return 0 for every period
regardless of any fetched price; otherwise the raw return is
`price(end)/price(start) − 1`, FX-adjusted unless the ticker is
base-currency denominated. -/

def periodReturn (ticker : String) (priceStart priceEnd fxReturn : ℚ)
    (isDomestic : Bool) : ℚ :=
  if ticker = "$CASH$" then 0
  else
    let raw := priceEnd / priceStart - 1
    if isDomestic then raw else (1 + raw) * (1 + fxReturn) - 1

/-- A cash row with injected nonzero return and contribution data. -/

def injectedCashItem : PortfolioItem :=
  { ticker := "$CASH$", date := { time := 0, year := 2024, month := 0 },
    weight := 10, returnPct := some 3, contribution := some 5 }

/-- Non-cash row sitting in January 2024, used to discharge the witness of
the amended C3. -/

def nonCashItem : PortfolioItem :=
  { ticker := "AAPL", date := { time := 0, year := 2024, month := 0 },
    weight := 20, returnPct := some 1, contribution := some (1/5) }

/-! ## Risk metrics: Sharpe ratio (`sharpeRatio`, lines 604–612) -/

/-- Model of `mean = returns.reduce(..)/returns.length`. -/

def jsMean (l : List ℚ) : ℚ := sumBy id l / (l.length : ℚ)

/-- Model of `variance = returns.reduce((a,b) => a + (b-mean)^2, 0)/(returns.length - 1)`
— note the sample (N−1) denominator. -/

def sharpeVariance (l : List ℚ) : ℚ :=
  sumBy (fun b => (b - jsMean l) ^ 2) l / ((l.length : ℚ) - 1)

open Classical in

/-- The `sharpeRatio` memo: 0 below two observations, 0 on zero standard
deviation, otherwise `mean / stdDev * sqrt 12` (annualisation). -/

noncomputable def sharpeRatio (returns : List ℚ) : ℝ :=
  if returns.length < 2 then 0
  else if Real.sqrt ((sharpeVariance returns : ℚ) : ℝ) = 0 then 0
  else ((jsMean returns : ℚ) : ℝ)
        / Real.sqrt ((sharpeVariance returns : ℚ) : ℝ) * Real.sqrt 12

/-- Textbook sample variance (divide by N−1). -/

def specSampleVar (l : List ℚ) : ℚ :=
  ((l.map (fun x => (x - specMean l) ^ 2)).sum) / ((l.length : ℚ) - 1)

open Classical in

/-- The Sharpe ratio the claim describes, built on the population variance
(divide by N). -/

noncomputable def specSharpePop (l : List ℚ) : ℝ :=
  if l.length < 2 then 0
  else if Real.sqrt ((specVar l : ℚ) : ℝ) = 0 then 0
  else ((specMean l : ℚ) : ℝ) / Real.sqrt ((specVar l : ℚ) : ℝ) * Real.sqrt 12

/-- The designated cash ticker string. -/
def cashTicker : String := "$CASH$"

/-- Ticker name used by the concrete witness datasets. -/
def tickA : String := "A"

/-! ## Theorems -/

theorem sumBy_eq_sum_map (f : α → ℚ) (l : List α) : sumBy f l = (l.map f).sum := by
  suffices h : ∀ q : ℚ, l.foldl (fun s x => s + f x) q = q + (l.map f).sum by
    simpa [sumBy] using h 0
  induction l with
  | nil => simp
  | cons x xs ih => intro q; simp [List.foldl_cons, ih, add_assoc]

theorem insertDesc_perm (x : TableItem) (l : List TableItem) :
    List.Perm (insertDesc x l) (x :: l) := by
  induction l with
  | nil => simp [insertDesc]
  | cons y ys ih =>
    by_cases h : y.contribution ≤ x.contribution
    · simp [insertDesc, h]
    · simp only [insertDesc, if_neg h]
      exact ((ih.cons y).trans (List.Perm.swap x y ys))

theorem sortDesc_perm (l : List TableItem) : List.Perm (sortDesc l) l := by
  induction l with
  | nil => simp [sortDesc]
  | cons x xs ih => exact ((insertDesc_perm x (sortDesc xs)).trans (ih.cons x))

theorem insertAsc_perm (x : TableItem) (l : List TableItem) :
    List.Perm (insertAsc x l) (x :: l) := by
  induction l with
  | nil => simp [insertAsc]
  | cons y ys ih =>
    by_cases h : x.contribution ≤ y.contribution
    · simp [insertAsc, h]
    · simp only [insertAsc, if_neg h]
      exact ((ih.cons y).trans (List.Perm.swap x y ys))

theorem sortAsc_perm (l : List TableItem) : List.Perm (sortAsc l) l := by
  induction l with
  | nil => simp [sortAsc]
  | cons x xs ih => exact ((insertAsc_perm x (sortAsc xs)).trans (ih.cons x))

theorem insertDesc_pairwise (x : TableItem) (l : List TableItem)
    (h : l.Pairwise (fun a b => b.contribution ≤ a.contribution)) :
    (insertDesc x l).Pairwise (fun a b => b.contribution ≤ a.contribution) := by
  induction l with
  | nil => simp [insertDesc]
  | cons y ys ih =>
    rcases List.pairwise_cons.mp h with ⟨hy, hys⟩
    by_cases hc : y.contribution ≤ x.contribution
    · simp only [insertDesc, if_pos hc]
      refine List.pairwise_cons.mpr ⟨?_, h⟩
      intro b hb
      rcases List.mem_cons.mp hb with rfl | hb
      · exact hc
      · exact le_trans (hy b hb) hc
    · simp only [insertDesc, if_neg hc]
      refine List.pairwise_cons.mpr ⟨?_, ih hys⟩
      intro b hb
      have hb' : b ∈ x :: ys := (insertDesc_perm x ys).mem_iff.mp hb
      rcases List.mem_cons.mp hb' with rfl | hb'
      · exact le_of_lt (lt_of_not_le hc)
      · exact hy b hb'

theorem sortDesc_pairwise (l : List TableItem) :
    (sortDesc l).Pairwise (fun a b => b.contribution ≤ a.contribution) := by
  induction l with
  | nil => simp [sortDesc]
  | cons x xs ih => exact insertDesc_pairwise x (sortDesc xs) ih

theorem insertAsc_pairwise (x : TableItem) (l : List TableItem)
    (h : l.Pairwise (fun a b => a.contribution ≤ b.contribution)) :
    (insertAsc x l).Pairwise (fun a b => a.contribution ≤ b.contribution) := by
  induction l with
  | nil => simp [insertAsc]
  | cons y ys ih =>
    rcases List.pairwise_cons.mp h with ⟨hy, hys⟩
    by_cases hc : x.contribution ≤ y.contribution
    · simp only [insertAsc, if_pos hc]
      refine List.pairwise_cons.mpr ⟨?_, h⟩
      intro b hb
      rcases List.mem_cons.mp hb with rfl | hb
      · exact hc
      · exact le_trans hc (hy b hb)
    · simp only [insertAsc, if_neg hc]
      refine List.pairwise_cons.mpr ⟨?_, ih hys⟩
      intro b hb
      have hb' : b ∈ x :: ys := (insertAsc_perm x ys).mem_iff.mp hb
      rcases List.mem_cons.mp hb' with rfl | hb'
      · exact le_of_lt (lt_of_not_le hc)
      · exact hy b hb'

theorem sortAsc_pairwise (l : List TableItem) :
    (sortAsc l).Pairwise (fun a b => a.contribution ≤ b.contribution) := by
  induction l with
  | nil => simp [sortAsc]
  | cons x xs ih => exact insertAsc_pairwise x (sortAsc xs) ih

/-- Stability of the descending sort: the sublist of items having any fixed
contribution value is untouched (ties keep original order). -/

theorem sortDesc_stable (l : List TableItem) (v : ℚ) :
    (sortDesc l).filter (fun i => i.contribution = v)
      = l.filter (fun i => i.contribution = v) := by
  induction l with
  | nil => simp [sortDesc]
  | cons x xs ih =>
    have key : ∀ m : List TableItem,
        (insertDesc x m).filter (fun i => i.contribution = v)
          = (x :: m).filter (fun i => i.contribution = v) := by
      intro m
      induction m with
      | nil => simp [insertDesc]
      | cons y ys ihm =>
        by_cases hc : y.contribution ≤ x.contribution
        · simp [insertDesc, hc]
        · have hlt : x.contribution < y.contribution := lt_of_not_le hc
          simp only [insertDesc, if_neg hc]
          by_cases hyv : y.contribution = v
          · by_cases hxv : x.contribution = v
            · exact absurd (hxv.trans hyv.symm) (ne_of_lt hlt)
            · simp only [List.filter_cons] at ihm ⊢
              simp [hyv, hxv, decide_eq_true_eq] at ihm ⊢
              simpa [hxv] using ihm
          · simp only [List.filter_cons] at ihm ⊢
            simp [hyv, decide_eq_true_eq] at ihm ⊢
            exact ihm
    rw [sortDesc, key (sortDesc xs), List.filter_cons, List.filter_cons, ih]

/-- Stability of the ascending sort. -/

theorem sortAsc_stable (l : List TableItem) (v : ℚ) :
    (sortAsc l).filter (fun i => i.contribution = v)
      = l.filter (fun i => i.contribution = v) := by
  induction l with
  | nil => simp [sortAsc]
  | cons x xs ih =>
    have key : ∀ m : List TableItem,
        (insertAsc x m).filter (fun i => i.contribution = v)
          = (x :: m).filter (fun i => i.contribution = v) := by
      intro m
      induction m with
      | nil => simp [insertAsc]
      | cons y ys ihm =>
        by_cases hc : x.contribution ≤ y.contribution
        · simp [insertAsc, hc]
        · have hlt : y.contribution < x.contribution := lt_of_not_le hc
          simp only [insertAsc, if_neg hc]
          by_cases hyv : y.contribution = v
          · by_cases hxv : x.contribution = v
            · exact absurd (hyv.trans hxv.symm) (ne_of_lt hlt)
            · simp only [List.filter_cons] at ihm ⊢
              simp [hyv, hxv, decide_eq_true_eq] at ihm ⊢
              simpa [hxv] using ihm
          · simp only [List.filter_cons] at ihm ⊢
            simp [hyv, decide_eq_true_eq] at ihm ⊢
            exact ihm
    rw [sortAsc, key (sortAsc xs), List.filter_cons, List.filter_cons, ih]

/-- C1: the reported Other Holdings weight is the residual
`100 − Σ(top contributor weights) − Σ(top disruptor weights)`, hence it plus
the top contributor weights plus the top disruptor weights is exactly 100. -/

theorem otherWeight_is_residual (items : List TableItem) :
    (attributionTable items).residualOtherWeight
        = 100 - (attributionTable items).topContribWeight
            - (attributionTable items).topDisruptWeight
      ∧ (attributionTable items).residualOtherWeight
          + (attributionTable items).topContribWeight
          + (attributionTable items).topDisruptWeight = 100 := by
  refine ⟨rfl, ?_⟩
  have h : (attributionTable items).residualOtherWeight
      = 100 - (attributionTable items).topContribWeight
          - (attributionTable items).topDisruptWeight := rfl
  rw [h]; ring

/-! ## C5: partition, sorting, truncation and stability of the ranking -/

/-- C5: the ranking step keeps only nonnegative contributions among Top
Contributors and negative ones among Top Disruptors, sorts them descending
resp. ascending by contribution, takes the first five of each, and the
stable sort keeps equal-contribution ties in original input order. -/

theorem ranking_partition_sorted_stable (items : List TableItem) (v : ℚ) :
    (∀ i ∈ (attributionTable items).topContributors, 0 ≤ i.contribution) ∧
    (∀ i ∈ (attributionTable items).topDisruptors, i.contribution < 0) ∧
    (attributionTable items).topContributors.length
        = min 5 (items.filter (fun i => decide (0 ≤ i.contribution))).length ∧
    (attributionTable items).topDisruptors.length
        = min 5 (items.filter (fun i => decide (i.contribution < 0))).length ∧
    List.Pairwise (fun a b => b.contribution ≤ a.contribution)
        (attributionTable items).topContributors ∧
    List.Pairwise (fun a b => a.contribution ≤ b.contribution)
        (attributionTable items).topDisruptors ∧
    (attributionTable items).topContributors
        ++ (sortDesc (items.filter (fun i => decide (0 ≤ i.contribution)))).drop 5
      = sortDesc (items.filter (fun i => decide (0 ≤ i.contribution))) ∧
    (attributionTable items).topDisruptors
        ++ (sortAsc (items.filter (fun i => decide (i.contribution < 0)))).drop 5
      = sortAsc (items.filter (fun i => decide (i.contribution < 0))) ∧
    List.Perm (sortDesc (items.filter (fun i => decide (0 ≤ i.contribution))))
        (items.filter (fun i => decide (0 ≤ i.contribution))) ∧
    (sortDesc (items.filter (fun i => decide (0 ≤ i.contribution)))).filter
          (fun i => i.contribution = v)
        = (items.filter (fun i => decide (0 ≤ i.contribution))).filter
            (fun i => i.contribution = v) ∧
    (sortAsc (items.filter (fun i => decide (i.contribution < 0)))).filter
          (fun i => i.contribution = v)
        = (items.filter (fun i => decide (i.contribution < 0))).filter
            (fun i => i.contribution = v) := by
  have hTC : (attributionTable items).topContributors
      = (sortDesc (items.filter (fun i => decide (0 ≤ i.contribution)))).take 5 := rfl
  have hTD : (attributionTable items).topDisruptors
      = (sortAsc (items.filter (fun i => decide (i.contribution < 0)))).take 5 := rfl
  refine ⟨?_, ?_, ?_, ?_, ?_, ?_, ?_, ?_, ?_, ?_, ?_⟩
  · intro i hi
    rw [hTC] at hi
    have h1 : i ∈ sortDesc (items.filter (fun j => decide (0 ≤ j.contribution))) :=
      List.mem_of_mem_take hi
    have h2 : i ∈ items.filter (fun j => decide (0 ≤ j.contribution)) :=
      (sortDesc_perm _).mem_iff.mp h1
    have := List.of_mem_filter h2
    exact of_decide_eq_true this
  · intro i hi
    rw [hTD] at hi
    have h1 : i ∈ sortAsc (items.filter (fun j => decide (j.contribution < 0))) :=
      List.mem_of_mem_take hi
    have h2 : i ∈ items.filter (fun j => decide (j.contribution < 0)) :=
      (sortAsc_perm _).mem_iff.mp h1
    have := List.of_mem_filter h2
    exact of_decide_eq_true this
  · rw [hTC, List.length_take, ((sortDesc_perm _).length_eq)]
  · rw [hTD, List.length_take, ((sortAsc_perm _).length_eq)]
  · rw [hTC]
    exact (sortDesc_pairwise _).sublist (List.take_sublist 5 _)
  · rw [hTD]
    exact (sortAsc_pairwise _).sublist (List.take_sublist 5 _)
  · rw [hTC]; exact List.take_append_drop 5 _
  · rw [hTD]; exact List.take_append_drop 5 _
  · exact sortDesc_perm _
  · exact sortDesc_stable _ v
  · exact sortAsc_stable _ v

/-- C6 counterexample: on `c6Items` the displayed Other Holdings return is
`(contribution * 100) / weight = 2`, not the plain quotient
`contribution / weight = 1/50` asserted by the claim. -/

theorem othersReturn_counterexample :
    (attributionTable c6Items).othersReturn = 2 ∧
    (attributionTable c6Items).othersContribution
        / (attributionTable c6Items).residualOtherWeight = 1/50 ∧
    (2 : ℚ) ≠ 1/50 := by
  refine ⟨?_, ?_, by norm_num⟩ <;>
    · norm_num [attributionTable, c6Items, sortDesc, sortAsc, insertDesc, insertAsc,
        sumBy, List.foldl]

/-- C6 (amended): the displayed Other Holdings return satisfies
`return * residualWeight = 100 * otherContribution` whenever the residual
weight exceeds the 0.001 guard, and is 0 whenever the residual weight is at
most 0.001 (in particular when it is approximately zero or negative); the
computation is a total function and never throws. -/

theorem othersReturn_guarded (items : List TableItem) :
    ((attributionTable items).residualOtherWeight ≤ 1/1000 →
        (attributionTable items).othersReturn = 0) ∧
    (1/1000 < (attributionTable items).residualOtherWeight →
        (attributionTable items).othersReturn
            * (attributionTable items).residualOtherWeight
          = 100 * (attributionTable items).othersContribution) := by
  have hdef : (attributionTable items).othersReturn
      = if (attributionTable items).residualOtherWeight > 1/1000
        then (attributionTable items).othersContribution * 100
              / (attributionTable items).residualOtherWeight
        else 0 := rfl
  constructor
  · intro h
    rw [hdef, if_neg (not_lt.mpr h)]
  · intro h
    rw [hdef, if_pos h]
    have hne : (attributionTable items).residualOtherWeight ≠ 0 := by
      intro h0
      rw [h0] at h
      norm_num at h
    rw [div_mul_cancel₀ _ hne]
    ring

/-- Witness for the amended C6 at the concrete input `c6Items`
(residual weight 50 exceeds the guard). -/

theorem othersReturn_guarded_witness :
    (attributionTable c6Items).othersReturn
        * (attributionTable c6Items).residualOtherWeight
      = 100 * (attributionTable c6Items).othersContribution :=
  (othersReturn_guarded c6Items).2 (by
    norm_num [attributionTable, c6Items, sortDesc, sortAsc, insertDesc, insertAsc,
      sumBy, List.foldl])

/-- C10 counterexample: on `dupItems` the item weights sum to exactly 100,
yet the current implementation reports Other Holdings weight 50 while the
older one reports 0 — refuting the claimed equivalence for arbitrary
bucket-result lists. -/

theorem tables_differ_at_total_100 :
    sumBy TableItem.weight dupItems = 100 ∧
    (attributionTable dupItems).residualOtherWeight = 50 ∧
    (attributionTableOld dupItems).othersWeight = 0 ∧
    (50 : ℚ) ≠ 0 := by
  refine ⟨?_, ?_, ?_, by norm_num⟩ <;>
    · norm_num [attributionTable, attributionTableOld, dupItems, sortDesc, sortAsc,
        insertDesc, insertAsc, sumBy, List.foldl]

theorem sumBy_perm (f : α → ℚ) {l l' : List α} (h : List.Perm l l') :
    sumBy f l = sumBy f l' := by
  rw [sumBy_eq_sum_map, sumBy_eq_sum_map]
  exact (h.map f).sum_eq

theorem sumBy_append (f : α → ℚ) (l l' : List α) :
    sumBy f (l ++ l') = sumBy f l + sumBy f l' := by
  simp [sumBy_eq_sum_map]

/-- If `s` is a sublist of `l` and the images of `l` under `f` are distinct,
then filtering `l` by membership of the `f`-image in `f '' s` recovers
exactly `s`. -/

theorem filter_mem_map_of_sublist [DecidableEq β] (f : α → β) :
    ∀ {s l : List α}, s.Sublist l → (l.map f).Nodup →
      l.filter (fun x => decide (f x ∈ s.map f)) = s := by
  intro s l hsub
  induction hsub with
  | slnil => simp
  | cons a h ih =>
    intro hnd
    rename_i l₁ l₂
    have hnd2 : (l₂.map f).Nodup := (List.nodup_cons.mp (by simpa using hnd)).2
    have hfa : f a ∉ l₂.map f := (List.nodup_cons.mp (by simpa using hnd)).1
    have hfa2 : f a ∉ l₁.map f := fun hmem =>
      hfa ((h.map f).subset hmem)
    rw [List.filter_cons, if_neg (by simpa using hfa2)]
    exact ih hnd2
  | cons₂ a h ih =>
    intro hnd
    rename_i l₁ l₂
    have hnd2 : (l₂.map f).Nodup := (List.nodup_cons.mp (by simpa using hnd)).2
    have hfa : f a ∉ l₂.map f := (List.nodup_cons.mp (by simpa using hnd)).1
    rw [List.filter_cons, if_pos (by simp)]
    congr 1
    have hcongr : ∀ x ∈ l₂, (decide (f x ∈ (a :: l₁).map f))
        = (decide (f x ∈ l₁.map f)) := by
      intro x hx
      have hne : f x ≠ f a := fun he =>
        hfa (he ▸ List.mem_map_of_mem f hx)
      simp [List.mem_cons, hne]
    rw [List.filter_congr hcongr]
    exact ih hnd2

/-- The negative filter is the Boolean complement of the positive one. -/

theorem neg_filter_eq_not (items : List TableItem) :
    items.filter (fun i => decide (i.contribution < 0))
      = items.filter (fun i => ! decide (0 ≤ i.contribution)) := by
  apply List.filter_congr
  intro x _
  by_cases h : 0 ≤ x.contribution
  · simp [h, not_lt.mpr h]
  · simp [h, lt_of_not_le h]

/-- With pairwise-distinct tickers, every input item lands in exactly one of
Top Contributors, Top Disruptors or Other Holdings, so the total input
weight splits across the three groups. -/

theorem weight_partition (items : List TableItem)
    (hnd : (items.map TableItem.ticker).Nodup) :
    sumBy TableItem.weight items
      = (attributionTable items).topContribWeight
        + (attributionTable items).topDisruptWeight
        + (attributionTableOld items).othersWeight := by
  classical
  set p : TableItem → Bool := fun i => decide (0 ≤ i.contribution) with hp
  set pos := items.filter p with hpos
  set neg := items.filter (fun i => decide (i.contribution < 0)) with hneg
  set topC := (sortDesc pos).take 5 with htopC
  set topD := (sortAsc neg).take 5 with htopD
  set L := sortDesc pos ++ sortAsc neg with hL
  -- L is a permutation of items
  have hLperm : List.Perm L items := by
    have h1 : List.Perm L (pos ++ neg) :=
      (sortDesc_perm pos).append (sortAsc_perm neg)
    have h2 : List.Perm (pos ++ neg) items := by
      rw [hpos, hneg, neg_filter_eq_not]
      exact List.filter_append_perm p items
    exact h1.trans h2
  have hndL : (L.map TableItem.ticker).Nodup :=
    ((hLperm.map TableItem.ticker).nodup_iff).mpr hnd
  -- topC ++ topD is a sublist of L
  have hsub : (topC ++ topD).Sublist L := by
    exact (List.take_sublist 5 _).append (List.take_sublist 5 _)
  have hfilter : L.filter
        (fun x => decide (x.ticker ∈ (topC ++ topD).map TableItem.ticker))
      = topC ++ topD :=
    filter_mem_map_of_sublist TableItem.ticker hsub hndL
  -- split L by membership of the ticker among the top tickers
  set q : TableItem → Bool :=
      fun x => decide (x.ticker ∈ (topC ++ topD).map TableItem.ticker) with hq
  have hsplit : List.Perm (L.filter q ++ L.filter (fun x => ! q x)) L :=
    List.filter_append_perm q L
  have hsumL : sumBy TableItem.weight L = sumBy TableItem.weight items :=
    sumBy_perm _ hLperm
  have hsum1 : sumBy TableItem.weight L
      = sumBy TableItem.weight (topC ++ topD)
        + sumBy TableItem.weight (L.filter (fun x => ! q x)) := by
    rw [← sumBy_perm TableItem.weight hsplit, sumBy_append, hfilter]
  -- the others list of the code is the complement filter on items
  have hothers : (attributionTableOld items).othersWeight
      = sumBy TableItem.weight (L.filter (fun x => ! q x)) := by
    have hiff : ∀ x ∈ items, (fun i => decide
          (i.ticker ∉ (topC ++ topD).map TableItem.ticker)) x = ! q x := by
      intro x _
      by_cases hmem : x.ticker ∈ (topC ++ topD).map TableItem.ticker
      · have h1 : decide (x.ticker ∉ (topC ++ topD).map TableItem.ticker) = false :=
          decide_eq_false (not_not_intro hmem)
        have h2 : q x = true := decide_eq_true hmem
        show decide _ = ! q x
        rw [h1, h2]
        rfl
      · have h1 : decide (x.ticker ∉ (topC ++ topD).map TableItem.ticker) = true :=
          decide_eq_true hmem
        have h2 : q x = false := decide_eq_false hmem
        show decide _ = ! q x
        rw [h1, h2]
        rfl
    have : (attributionTableOld items).othersWeight
        = sumBy TableItem.weight (items.filter (fun x => ! q x)) := by
      show sumBy TableItem.weight (items.filter _) = _
      rw [List.filter_congr hiff]
    rw [this]
    exact sumBy_perm _ (hLperm.symm.filter _)
  have htcw : (attributionTable items).topContribWeight
      = sumBy TableItem.weight topC := rfl
  have htdw : (attributionTable items).topDisruptWeight
      = sumBy TableItem.weight topD := rfl
  rw [htcw, htdw, hothers, ← hsumL, hsum1, sumBy_append]

/-- C10 (amended): provided every input item has a distinct ticker, the two
implementations differ in their reported Other Holdings weight by exactly
`100 −` the total of all item weights, hence agree iff the weights sum to
exactly 100. -/

theorem tables_agree_iff_total_100 (items : List TableItem)
    (hnd : (items.map TableItem.ticker).Nodup) :
    (attributionTable items).residualOtherWeight
        - (attributionTableOld items).othersWeight
      = 100 - sumBy TableItem.weight items ∧
    ((attributionTable items).residualOtherWeight
        = (attributionTableOld items).othersWeight
      ↔ sumBy TableItem.weight items = 100) := by
  have hres : (attributionTable items).residualOtherWeight
      = 100 - (attributionTable items).topContribWeight
          - (attributionTable items).topDisruptWeight := rfl
  have hpart := weight_partition items hnd
  constructor
  · rw [hres, hpart]; ring
  · constructor
    · intro h
      have : (100 : ℚ) - sumBy TableItem.weight items = 0 := by
        rw [hpart, ← h, hres]; ring
      linarith
    · intro h
      rw [hres]
      have : (attributionTable items).topContribWeight
          + (attributionTable items).topDisruptWeight
          + (attributionTableOld items).othersWeight = 100 := by
        rw [← hpart, h]
      linarith

/-- Witness for the amended C10 at the concrete input `c10Items`. -/

theorem tables_agree_iff_total_100_witness :
    (attributionTable c10Items).residualOtherWeight
        - (attributionTableOld c10Items).othersWeight
      = 100 - sumBy TableItem.weight c10Items ∧
    ((attributionTable c10Items).residualOtherWeight
        = (attributionTableOld c10Items).othersWeight
      ↔ sumBy TableItem.weight c10Items = 100) :=
  tables_agree_iff_total_100 c10Items (by decide)

theorem insertByTime_perm (x : PortfolioItem) (l : List PortfolioItem) :
    List.Perm (insertByTime x l) (x :: l) := by
  induction l with
  | nil => simp [insertByTime]
  | cons y ys ih =>
    by_cases h : x.date.time ≤ y.date.time
    · simp [insertByTime, h]
    · simp only [insertByTime, if_neg h]
      exact ((ih.cons y).trans (List.Perm.swap x y ys))

theorem sortByDateAsc_perm (l : List PortfolioItem) :
    List.Perm (sortByDateAsc l) l := by
  induction l with
  | nil => simp [sortByDateAsc]
  | cons x xs ih => exact ((insertByTime_perm x (sortByDateAsc xs)).trans (ih.cons x))

theorem insertByTime_pairwise (x : PortfolioItem) (l : List PortfolioItem)
    (h : l.Pairwise (fun a b => a.date.time ≤ b.date.time)) :
    (insertByTime x l).Pairwise (fun a b => a.date.time ≤ b.date.time) := by
  induction l with
  | nil => simp [insertByTime]
  | cons y ys ih =>
    rcases List.pairwise_cons.mp h with ⟨hy, hys⟩
    by_cases hc : x.date.time ≤ y.date.time
    · simp only [insertByTime, if_pos hc]
      refine List.pairwise_cons.mpr ⟨?_, h⟩
      intro b hb
      rcases List.mem_cons.mp hb with rfl | hb
      · exact hc
      · exact le_trans hc (hy b hb)
    · simp only [insertByTime, if_neg hc]
      refine List.pairwise_cons.mpr ⟨?_, ih hys⟩
      intro b hb
      have hb' : b ∈ x :: ys := (insertByTime_perm x ys).mem_iff.mp hb
      rcases List.mem_cons.mp hb' with rfl | hb'
      · exact le_of_lt (lt_of_not_le hc)
      · exact hy b hb'

theorem sortByDateAsc_pairwise (l : List PortfolioItem) :
    (sortByDateAsc l).Pairwise (fun a b => a.date.time ≤ b.date.time) := by
  induction l with
  | nil => simp [sortByDateAsc]
  | cons x xs ih => exact insertByTime_pairwise x (sortByDateAsc xs) ih

/-- In a list sorted by date, every element's time is at most the last
element's time. -/

theorem time_le_getLast (l : List PortfolioItem)
    (hs : l.Pairwise (fun a b => a.date.time ≤ b.date.time))
    (hne : l ≠ []) (x : PortfolioItem) (hx : x ∈ l) :
    x.date.time ≤ (l.getLast hne).date.time := by
  induction l with
  | nil => exact absurd rfl hne
  | cons y ys ih =>
    rcases List.pairwise_cons.mp hs with ⟨hy, hys⟩
    cases ys with
    | nil =>
      rcases List.mem_singleton.mp hx with rfl
      simp [List.getLast]
    | cons z zs =>
      have hne2 : z :: zs ≠ [] := List.cons_ne_nil z zs
      have hlast : (y :: z :: zs).getLast hne = (z :: zs).getLast hne2 := by
        simp [List.getLast]
      rcases List.mem_cons.mp hx with rfl | hx2
      · rw [hlast]
        exact hy _ (List.getLast_mem hne2)
      · rw [hlast]
        exact ih hys hne2 hx2

theorem dedupFirstAux_eq_nil (l : List String) (seen : List String)
    (h : ∀ x ∈ l, x ∈ seen) : dedupFirstAux l seen = [] := by
  induction l generalizing seen with
  | nil => rfl
  | cons x xs ih =>
    have hx : x ∈ seen := h x (List.mem_cons_self x xs)
    rw [dedupFirstAux, if_pos hx]
    exact ih seen (fun y hy => h y (List.mem_cons_of_mem x hy))

/-- A constant nonempty ticker column dedups to the single ticker. -/

theorem dedupFirstAux_const (t : String) (l : List String)
    (hne : l ≠ []) (h : ∀ x ∈ l, x = t) : dedupFirstAux l [] = [t] := by
  cases l with
  | nil => exact absurd rfl hne
  | cons x xs =>
    have hx : x = t := h x (List.mem_cons_self x xs)
    have hnil : dedupFirstAux xs [x] = [] :=
      dedupFirstAux_eq_nil xs [x] (fun y hy => by
        rw [h y (List.mem_cons_of_mem x hy), ← hx]
        exact List.mem_singleton.mpr rfl)
    rw [dedupFirstAux, if_neg (List.not_mem_nil x), hnil, hx]

/-- C2 counterexample: with total weight `−50 ≠ 0` the code returns a
weighted-average return of 0 (the guard is `weightSum > 0`, not
`weightSum ≠ 0`), while the claimed formula `Σ(w·r)/Σw` yields 10. -/

theorem aggregate_return_guard_counterexample :
    (aggregatePeriodData [negWeightItem]).map TableItem.returnPct = [some 0] ∧
    sumBy PortfolioItem.weight [negWeightItem] ≠ 0 ∧
    sumBy (fun i => i.weight * returnVal i) [negWeightItem]
        / sumBy PortfolioItem.weight [negWeightItem] = 10 ∧
    (0 : ℚ) ≠ 10 := by
  refine ⟨?_, ?_, ?_, by norm_num⟩ <;>
    · norm_num [aggregatePeriodData, aggregateGroup, dedupFirstAux, sortByDateAsc,
        insertByTime, sumBy, List.foldl, negWeightItem, returnVal, contribVal]

/-- C2 (amended): for a nonempty list of period rows of a single ticker,
`aggregatePeriodData` returns exactly one bucket result whose contribution
is the sum of the rows' contributions, whose weight is the weight of a
latest-dated row (end-of-bucket snapshot), and whose return is
`Σ(wᵢ·rᵢ)/Σ(wᵢ)` when `Σwᵢ > 0` and 0 otherwise (in particular 0 when
`Σwᵢ = 0`). -/

theorem aggregate_single_ticker (t : String) (data : List PortfolioItem)
    (hne : data ≠ []) (ht : ∀ d ∈ data, d.ticker = t) :
    ∃ r, aggregatePeriodData data = [r] ∧
      r.ticker = t ∧
      r.contribution = (data.map contribVal).sum ∧
      (∃ last ∈ data, r.weight = last.weight ∧
        ∀ d ∈ data, d.date.time ≤ last.date.time) ∧
      r.returnPct = some (if 0 < (data.map PortfolioItem.weight).sum
          then (data.map (fun d => d.weight * returnVal d)).sum
              / (data.map PortfolioItem.weight).sum
          else 0) := by
  have hmapne : data.map PortfolioItem.ticker ≠ [] := by
    intro h
    exact hne (List.map_eq_nil_iff.mp h)
  have hconst : ∀ x ∈ data.map PortfolioItem.ticker, x = t := by
    intro x hx
    rcases List.mem_map.mp hx with ⟨d, hd, rfl⟩
    exact ht d hd
  have hdedup : dedupFirstAux (data.map PortfolioItem.ticker) [] = [t] :=
    dedupFirstAux_const t _ hmapne hconst
  have hfilter : data.filter (fun d => decide (d.ticker = t)) = data :=
    List.filter_eq_self.mpr (fun d hd => decide_eq_true (ht d hd))
  have hlist : aggregatePeriodData data = [aggregateGroup t data] := by
    rw [aggregatePeriodData, hdedup, List.map_cons, List.map_nil, hfilter]
  set sorted := sortByDateAsc data with hsorted
  have hperm : List.Perm sorted data := sortByDateAsc_perm data
  have hsne : sorted ≠ [] := by
    intro h
    rw [h] at hperm
    exact hne (hperm.nil_eq).symm
  refine ⟨aggregateGroup t data, hlist, rfl, ?_, ?_, ?_⟩
  · show sumBy contribVal sorted = _
    rw [sumBy_eq_sum_map]
    exact ((hperm.map contribVal).sum_eq)
  · refine ⟨sorted.getLast hsne, hperm.mem_iff.mp (List.getLast_mem hsne), ?_, ?_⟩
    · show ((sorted.getLast?).map PortfolioItem.weight).getD 0 = _
      rw [List.getLast?_eq_getLast sorted hsne]
      simp
    · intro d hd
      exact time_le_getLast sorted (sortByDateAsc_pairwise data) hsne d
        (hperm.mem_iff.mpr hd)
  · show some (if sumBy PortfolioItem.weight sorted > 0
        then sumBy (fun i => i.weight * returnVal i) sorted
            / sumBy PortfolioItem.weight sorted
        else 0) = _
    have hw : sumBy PortfolioItem.weight sorted
        = (data.map PortfolioItem.weight).sum := by
      rw [sumBy_eq_sum_map]
      exact ((hperm.map PortfolioItem.weight).sum_eq)
    have hwr : sumBy (fun i => i.weight * returnVal i) sorted
        = (data.map (fun d => d.weight * returnVal d)).sum := by
      rw [sumBy_eq_sum_map]
      exact ((hperm.map _).sum_eq)
    rw [hw, hwr]

/-- Witness for the amended C2 at the concrete two-row input. -/

theorem aggregate_single_ticker_witness :
    ∃ r, aggregatePeriodData [c2Row1, c2Row2] = [r] ∧
      r.ticker = "A" ∧
      r.contribution = ([c2Row1, c2Row2].map contribVal).sum ∧
      (∃ last ∈ [c2Row1, c2Row2], r.weight = last.weight ∧
        ∀ d ∈ [c2Row1, c2Row2], d.date.time ≤ last.date.time) ∧
      r.returnPct = some (if 0 < ([c2Row1, c2Row2].map PortfolioItem.weight).sum
          then ([c2Row1, c2Row2].map (fun d => d.weight * returnVal d)).sum
              / ([c2Row1, c2Row2].map PortfolioItem.weight).sum
          else 0) :=
  aggregate_single_ticker tickA [c2Row1, c2Row2] (by simp)
    (by
      intro d hd
      rcases List.mem_cons.mp hd with rfl | hd2
      · rfl
      · rcases List.mem_singleton.mp hd2 with rfl
        rfl)

theorem monthlyCell_getD (history : List PortfolioItem) (y : Int) (m : Fin 12) :
    (monthlyCell history y m).getD 0
      = ((monthlyEntries history y m).map contribVal).sum := by
  by_cases h : (monthlyEntries history y m).length > 0
  · rw [monthlyCell, if_pos h, Option.getD_some, sumBy_eq_sum_map]
  · have hnil : monthlyEntries history y m = [] :=
      List.eq_nil_of_length_eq_zero (Nat.eq_zero_of_not_pos h)
    rw [monthlyCell, if_neg h, hnil]
    rfl

/-- Summing month fibers over a set `S` of months equals the single sum over
entries whose month lies in `S`. -/

theorem sum_month_fibers (c : PortfolioItem → ℚ) (P : PortfolioItem → Prop)
    [DecidablePred P] (S : Finset (Fin 12)) (l : List PortfolioItem) :
    (∑ m ∈ S, ((l.filter (fun d => decide (d.date.month = m ∧ P d))).map c).sum)
      = ((l.filter (fun d => decide (d.date.month ∈ S ∧ P d))).map c).sum := by
  induction l with
  | nil => simp
  | cons x xs ih =>
    have hsplit : ∀ m : Fin 12,
        (((x :: xs).filter (fun d => decide (d.date.month = m ∧ P d))).map c).sum
          = ((xs.filter (fun d => decide (d.date.month = m ∧ P d))).map c).sum
            + (if x.date.month = m ∧ P x then c x else 0) := by
      intro m
      by_cases h : x.date.month = m ∧ P x
      · simp [List.filter_cons, h, add_comm]
      · simp [List.filter_cons, h]
    rw [Finset.sum_congr rfl (fun m _ => hsplit m), Finset.sum_add_distrib, ih]
    by_cases hP : P x
    · have hz : (∑ m ∈ S, if x.date.month = m ∧ P x then c x else 0)
          = if x.date.month ∈ S then c x else 0 := by
        rw [Finset.sum_congr rfl
          (fun m _ => if_congr (and_iff_left hP) rfl rfl)]
        exact Finset.sum_ite_eq S x.date.month (fun _ => c x)
      rw [hz]
      by_cases hm : x.date.month ∈ S
      · simp [List.filter_cons, hm, hP, add_comm]
      · simp [List.filter_cons, hm, hP]
    · have hz : (∑ m ∈ S, if x.date.month = m ∧ P x then c x else 0) = 0 := by
        refine Finset.sum_eq_zero (fun m _ => ?_)
        rw [if_neg (fun hc => hP hc.2)]
      rw [hz]
      simp [List.filter_cons, hP]

/-- Every month of `Fin 12` lies in the quarter-1 list iff it lies in the
quarter-1 finset. -/

theorem q1_months_iff : ∀ m : Fin 12,
    (m.val ∈ ([0, 1, 2] : List ℕ)) ↔ (m ∈ ({0, 1, 2} : Finset (Fin 12))) := by
  decide

/-- C4: with all snapshot dates in the primary year `Y`, a ticker's 12
monthly matrix cells sum to its full-range cumulative contribution, and
every row of the Q1 rollup table has contribution equal to the sum of that
ticker's January, February and March cells. -/

theorem monthly_contributions_additive (data : List PortfolioItem) (Y : Int)
    (t : String) (hY : ∀ d ∈ data, d.date.year = Y) :
    (∑ m : Fin 12,
        (monthlyCell (data.filter (fun d => decide (d.ticker = t))) Y m).getD 0)
      = sumBy contribVal (data.filter (fun d => decide (d.ticker = t))) ∧
    (∀ r ∈ aggregatePeriodData (data.filter (fun d =>
        decide (d.date.month.val ∈ ([0, 1, 2] : List ℕ) ∧ d.date.year = Y))),
      r.contribution = ∑ m ∈ ({0, 1, 2} : Finset (Fin 12)),
        (monthlyCell (data.filter (fun d => decide (d.ticker = r.ticker))) Y m).getD 0) := by
  constructor
  · set history := data.filter (fun d => decide (d.ticker = t)) with hh
    rw [Finset.sum_congr rfl (fun m _ => monthlyCell_getD history Y m)]
    have hfib := sum_month_fibers contribVal (fun d => d.date.year = Y)
      Finset.univ history
    rw [show (fun (m : Fin 12) => ((monthlyEntries history Y m).map contribVal).sum)
        = (fun (m : Fin 12) => ((history.filter
            (fun d => decide (d.date.month = m ∧ d.date.year = Y))).map contribVal).sum)
      from rfl, hfib]
    have hself : ∀ d ∈ history,
        (fun d => decide (d.date.month ∈ (Finset.univ : Finset (Fin 12))
          ∧ d.date.year = Y)) d = true := by
      intro d hd
      exact decide_eq_true ⟨Finset.mem_univ _, hY d (List.mem_of_mem_filter hd)⟩
    rw [List.filter_eq_self.mpr hself, sumBy_eq_sum_map]
  · intro r hr
    rcases List.mem_map.mp hr with ⟨t', _ht', rfl⟩
    have hticker : (aggregateGroup t'
        ((data.filter (fun d => decide (d.date.month.val ∈ ([0, 1, 2] : List ℕ)
          ∧ d.date.year = Y))).filter (fun d => decide (d.ticker = t')))).ticker
        = t' := rfl
    rw [hticker]
    set q1 := data.filter (fun d => decide (d.date.month.val ∈ ([0, 1, 2] : List ℕ)
      ∧ d.date.year = Y)) with hq1
    set grp := q1.filter (fun d => decide (d.ticker = t')) with hgrp
    have hc : (aggregateGroup t' grp).contribution = (grp.map contribVal).sum := by
      show sumBy contribVal (sortByDateAsc grp) = _
      rw [sumBy_eq_sum_map]
      exact ((sortByDateAsc_perm grp).map contribVal).sum_eq
    rw [hc]
    set history := data.filter (fun d => decide (d.ticker = t')) with hh
    rw [Finset.sum_congr rfl (fun m _ => monthlyCell_getD history Y m)]
    have hfib := sum_month_fibers contribVal (fun d => d.date.year = Y)
      ({0, 1, 2} : Finset (Fin 12)) history
    rw [show (fun (m : Fin 12) => ((monthlyEntries history Y m).map contribVal).sum)
        = (fun (m : Fin 12) => ((history.filter
            (fun d => decide (d.date.month = m ∧ d.date.year = Y))).map contribVal).sum)
      from rfl, hfib]
    rw [hgrp, hq1, hh, List.filter_filter, List.filter_filter]
    have hpt : ∀ d ∈ data,
        ((fun a => decide (a.ticker = t')
            && decide (a.date.month.val ∈ ([0, 1, 2] : List ℕ) ∧ a.date.year = Y)) d)
          = ((fun a => decide (a.date.month ∈ ({0, 1, 2} : Finset (Fin 12))
            ∧ a.date.year = Y) && decide (a.ticker = t')) d) := by
      intro d _
      have hiff := q1_months_iff d.date.month
      by_cases h2 : d.date.month.val ∈ ([0, 1, 2] : List ℕ)
      · have h2m : d.date.month ∈ ({0, 1, 2} : Finset (Fin 12)) := hiff.mp h2
        by_cases h1 : d.ticker = t' <;> by_cases h3 : d.date.year = Y <;>
          simp [h1, h2, h2m, h3]
      · have h2m : d.date.month ∉ ({0, 1, 2} : Finset (Fin 12)) :=
          fun hc2 => h2 (hiff.mpr hc2)
        by_cases h1 : d.ticker = t' <;> by_cases h3 : d.date.year = Y <;>
          simp [h1, h2, h2m, h3]
    rw [List.filter_congr hpt]

/-- Witness for C4 at the concrete dataset `c4Data`. -/

theorem monthly_contributions_additive_witness :
    (∑ m : Fin 12,
        (monthlyCell (c4Data.filter (fun d => decide (d.ticker = "A"))) 2024 m).getD 0)
      = sumBy contribVal (c4Data.filter (fun d => decide (d.ticker = "A"))) ∧
    (∀ r ∈ aggregatePeriodData (c4Data.filter (fun d =>
        decide (d.date.month.val ∈ ([0, 1, 2] : List ℕ) ∧ d.date.year = 2024))),
      r.contribution = ∑ m ∈ ({0, 1, 2} : Finset (Fin 12)),
        (monthlyCell (c4Data.filter (fun d => decide (d.ticker = r.ticker))) 2024 m).getD 0) :=
  monthly_contributions_additive c4Data 2024 tickA (by
    intro d hd
    rcases List.mem_cons.mp hd with rfl | hd2
    · rfl
    · rcases List.mem_cons.mp hd2 with rfl | hd3
      · rfl
      · rcases List.mem_singleton.mp hd3 with rfl
        rfl)

/-- C9 counterexample: the January cell of `c9Hist` carries the flat
sentinel `some 0` (with nonzero weight elsewhere in the range), while a
ticker with no data carries `none` — but the renderer shows a hyphen for
BOTH cells (`showHyphen = true`), not the "0.00%" text asserted by the
claim (a numeric cell is rendered only when `showHyphen = false`). -/

theorem flat_cell_renders_hyphen :
    monthlyCell c9Hist 2024 0 = some 0 ∧
    monthlyMaxWeight c9Hist 2024 0 = 0 ∧
    monthlyMaxWeight c9Hist 2024 1 = 50 ∧
    showHyphen c9Hist 2024 0 = true ∧
    monthlyCell ([] : List PortfolioItem) 2024 0 = none ∧
    showHyphen ([] : List PortfolioItem) 2024 0 = true ∧
    (some (0 : ℚ) ≠ none) := by
  refine ⟨?_, ?_, ?_, ?_, rfl, rfl, by simp⟩ <;>
    · norm_num [monthlyCell, monthlyEntries, monthlyMaxWeight, showHyphen,
        c9Hist, sumBy, List.foldl, contribVal, List.filter]

/-- C9 (amended): the matrix cell carries a sentinel distinguishing "no
data" from a flat position — the cell is `none` exactly when the ticker has
no entry in the bucket, and otherwise holds the summed contribution (so a
flat bucket yields `some 0 ≠ none`) — but both cases render as a hyphen:
`showHyphen` is true for a `none` cell and also for a populated cell whose
value and bucket max weight are both below the 0.0001 tolerance. -/

theorem cell_sentinel (history : List PortfolioItem) (y : Int) (m : Fin 12) :
    (monthlyCell history y m = none ↔ monthlyEntries history y m = []) ∧
    (monthlyEntries history y m ≠ [] →
      monthlyCell history y m
        = some (sumBy contribVal (monthlyEntries history y m))) ∧
    (monthlyCell history y m = none → showHyphen history y m = true) ∧
    (∀ v : ℚ, monthlyCell history y m = some v → |v| < 1/10000 →
      monthlyMaxWeight history y m < 1/10000 → showHyphen history y m = true) := by
  refine ⟨?_, ?_, ?_, ?_⟩
  · by_cases h : (monthlyEntries history y m).length > 0
    · rw [monthlyCell, if_pos h]
      constructor
      · intro hc
        exact absurd hc (by simp)
      · intro hnil
        rw [hnil] at h
        simp at h
    · rw [monthlyCell, if_neg h]
      have hnil : monthlyEntries history y m = [] :=
        List.eq_nil_of_length_eq_zero (Nat.eq_zero_of_not_pos h)
      simp [hnil]
  · intro hne
    have h : (monthlyEntries history y m).length > 0 :=
      List.length_pos.mpr hne
    rw [monthlyCell, if_pos h]
  · intro hnone
    rw [showHyphen, hnone]
  · intro v hv habs hw
    rw [showHyphen, hv]
    simp only [decide_eq_true_eq]
    norm_num
    exact ⟨habs, hw⟩

/-- Witness for the amended C9 at the concrete history `c9Hist`: the flat
January bucket is populated, so its cell is the (zero) sum, and it renders
as a hyphen. -/

theorem cell_sentinel_witness :
    monthlyCell c9Hist 2024 0
        = some (sumBy contribVal (monthlyEntries c9Hist 2024 0)) ∧
    showHyphen c9Hist 2024 0 = true :=
  ⟨(cell_sentinel c9Hist 2024 0).2.1 (by
      norm_num [monthlyEntries, c9Hist, List.filter]),
   (cell_sentinel c9Hist 2024 0).2.2.2 0
      (by norm_num [monthlyCell, monthlyEntries, c9Hist, sumBy, List.foldl,
        contribVal, List.filter])
      (by norm_num)
      (by norm_num [monthlyMaxWeight, monthlyEntries, c9Hist, List.filter])⟩

theorem lenGuard_of_ne_nil {l : List ℚ} (h : l ≠ []) : lenGuard l = (l.length : ℚ) := by
  rw [lenGuard, if_neg (fun hc => h (List.eq_nil_of_length_eq_zero hc))]

theorem seriesMean_eq_specMean {l : List ℚ} (h : l ≠ []) :
    seriesMean l = specMean l := by
  rw [seriesMean, specMean, lenGuard_of_ne_nil h, sumBy_eq_sum_map, List.map_id]

theorem seriesVariance_eq_specVar {l : List ℚ} (h : l ≠ []) :
    seriesVariance l = specVar l := by
  rw [seriesVariance, specVar, lenGuard_of_ne_nil h, sumBy_eq_sum_map,
    seriesMean_eq_specMean h]

theorem covarianceLoop_eq_specCov {a b : List ℚ} (ha : a ≠ []) (hb : b ≠ []) :
    covarianceLoop a b = specCov a b := by
  rw [covarianceLoop, specCov, lenGuard_of_ne_nil hb,
    seriesMean_eq_specMean ha, seriesMean_eq_specMean hb]
  congr 1
  have := sumBy_eq_sum_map (fun p : ℚ × ℚ =>
    (p.1 - specMean a) * (p.2 - specMean b)) (a.zip b)
  rw [← this]
  rfl

theorem zip_self_eq_map (s : List ℚ) : s.zip s = s.map (fun x => (x, x)) := by
  induction s with
  | nil => rfl
  | cons x xs ih => simp [List.zip_cons_cons, ih]

/-- C8: the computed beta is covariance over portfolio variance with a
zero-variance guard, and any nonempty series with nonzero variance has beta
exactly 1 against itself. -/

theorem beta_spec (months : List JSDate) (data : List PortfolioItem)
    (t : String) (hm : months ≠ []) :
    ((specVar (portSeries months data) ≠ 0 →
        computedBeta months data t
          = specCov (tickerSeries months (data.filter (fun d => decide (d.ticker = t))))
              (portSeries months data)
            / specVar (portSeries months data)) ∧
      (specVar (portSeries months data) = 0 → computedBeta months data t = 0)) ∧
    (∀ s : List ℚ, s ≠ [] → specVar s ≠ 0 → betaOf s s = 1) := by
  have hport : portSeries months data ≠ [] := by
    intro h
    exact hm (List.map_eq_nil_iff.mp h)
  have htick : tickerSeries months (data.filter (fun d => decide (d.ticker = t))) ≠ [] := by
    intro h
    exact hm (List.map_eq_nil_iff.mp h)
  have hv := seriesVariance_eq_specVar hport
  constructor
  · constructor
    · intro hne
      rw [computedBeta, betaOf, if_pos (by rw [hv]; exact hne),
        covarianceLoop_eq_specCov htick hport, hv]
    · intro hz
      rw [computedBeta, betaOf, hv, if_neg (by simp [hz])]
  · intro s hs hsv
    have hvs := seriesVariance_eq_specVar hs
    have hnum : seriesVariance s ≠ 0 := by rw [hvs]; exact hsv
    rw [betaOf, if_pos hnum]
    have hcov : covarianceLoop s s = seriesVariance s := by
      rw [covarianceLoop, seriesVariance]
      congr 1
      have hfold := sumBy_eq_sum_map (fun p : ℚ × ℚ =>
        (p.1 - seriesMean s) * (p.2 - seriesMean s)) (s.zip s)
      have hfold2 := sumBy_eq_sum_map (fun b => (b - seriesMean s) ^ 2) s
      show sumBy (fun p : ℚ × ℚ =>
        (p.1 - seriesMean s) * (p.2 - seriesMean s)) (s.zip s) = _
      rw [hfold, hfold2, zip_self_eq_map, List.map_map]
      refine congrArg List.sum (List.map_congr_left (fun x _ => ?_))
      show (x - seriesMean s) * (x - seriesMean s) = (x - seriesMean s) ^ 2
      ring
    rw [hcov]
    exact div_self hnum

/-- Witness for C8 at the concrete input: the full conclusion instantiated
at `c8Months`/`c8Data`. -/

theorem beta_spec_witness :
    computedBeta c8Months c8Data tickA
        = specCov (tickerSeries c8Months (c8Data.filter (fun d => decide (d.ticker = "A"))))
            (portSeries c8Months c8Data)
          / specVar (portSeries c8Months c8Data) ∧
    betaOf [1, 3] [1, 3] = 1 := by
  constructor
  · refine ((beta_spec c8Months c8Data tickA (by simp [c8Months])).1.1 ?_)
    norm_num [specVar, specMean, portSeries, c8Months, c8Data, sumBy, List.foldl,
      contribVal, List.filter]
  · refine ((beta_spec c8Months c8Data tickA (by simp [c8Months])).2 [1, 3] (by simp) ?_)
    norm_num [specVar, specMean]

/-- C3 counterexample: the client aggregation applies no cash override — an
injected `$CASH$` row with contribution 5 and return 3 produces an
aggregated bucket result carrying exactly those injected values (the
quarterly rollups aggregate `cleanData`, which since `cleanData = data` in
the current version contains cash rows), refuting "contribution and return
are exactly 0 in every aggregated bucket regardless of injected data". -/

theorem cash_bucket_keeps_injected_values :
    (aggregatePeriodData [injectedCashItem]).map TableItem.contribution = [5] ∧
    (aggregatePeriodData [injectedCashItem]).map TableItem.returnPct = [some 3] ∧
    ((5 : ℚ) ≠ 0 ∧ (3 : ℚ) ≠ 0) := by
  refine ⟨?_, ?_, by norm_num⟩ <;>
    · norm_num [aggregatePeriodData, aggregateGroup, dedupFirstAux, sortByDateAsc,
        insertByTime, sumBy, List.foldl, injectedCashItem, returnVal, contribVal]

/-- C3 (amended): the zero override for the cash ticker lives in the
(spec-modelled) period-return calculator, which forces `$CASH$` to return 0
regardless of any price or FX data; the client additionally excludes
tickers containing "CASH" from the monthly attribution tables; but the
client-side aggregation itself applies no override — a row's injected
contribution flows into its aggregated bucket result unchanged. -/

theorem cash_override_location (p₁ p₂ fx : ℚ) (dom : Bool)
    (data : List PortfolioItem) (y : Int) (m : Fin 12) (d e : PortfolioItem) :
    periodReturn cashTicker p₁ p₂ fx dom = 0 ∧
    (d ∈ monthlyTableData data y m → includesCASH d.ticker = false) ∧
    (aggregatePeriodData [e]).map TableItem.contribution = [contribVal e] := by
  refine ⟨rfl, ?_, ?_⟩
  · intro hd
    have hmem := List.mem_filter.mp hd
    have hb := hmem.2
    rcases (Bool.and_eq_true _ _).mp hb with ⟨_, hnot⟩
    simpa using hnot
  · have hdedup : dedupFirstAux ([e].map PortfolioItem.ticker) [] = [e.ticker] := by
      rw [List.map_cons, List.map_nil, dedupFirstAux,
        if_neg (List.not_mem_nil e.ticker)]
      rfl
    have hfilter : [e].filter (fun d => decide (d.ticker = e.ticker)) = [e] := by
      rw [List.filter_cons, if_pos (decide_eq_true rfl)]
      rfl
    rw [aggregatePeriodData, hdedup, List.map_cons, List.map_nil, hfilter,
      List.map_cons, List.map_nil]
    show [sumBy contribVal (sortByDateAsc [e])] = [contribVal e]
    rw [show sortByDateAsc [e] = [e] from rfl]
    show [0 + contribVal e] = [contribVal e]
    rw [zero_add]

/-- Witness for the amended C3 at concrete inputs: the cash return override
(spec-modelled) at concrete prices, the monthly-table cash exclusion at a
concrete member, and the aggregation pass-through for the injected row. -/

theorem cash_override_location_witness :
    periodReturn cashTicker 100 123 (1/20) false = 0 ∧
    includesCASH nonCashItem.ticker = false ∧
    (aggregatePeriodData [injectedCashItem]).map TableItem.contribution
      = [contribVal injectedCashItem] := by
  have h := cash_override_location 100 123 (1/20) false [nonCashItem] 2024 0
    nonCashItem injectedCashItem
  exact ⟨h.1, h.2.1 (by
    rw [monthlyTableData, List.filter_cons]
    have hcond : (decide (nonCashItem.date.year = 2024 ∧ nonCashItem.date.month = 0)
        && ! includesCASH nonCashItem.ticker) = true := by decide
    rw [if_pos hcond]
    exact List.mem_cons_self _ _), h.2.2⟩

/-- C7 counterexample: on the series `[0, 2]` the code's Sharpe ratio is
`(1/√2)·√12` (sample variance 2) while the claimed population-variance
Sharpe is `√12` (population variance 1); the two differ. -/

theorem sharpe_not_population_variance :
    sharpeRatio [0, 2] ≠ specSharpePop [0, 2] := by
  have hlen : ¬ (([0, 2] : List ℚ).length < 2) := by norm_num
  have h1 : sharpeVariance [0, 2] = 2 := by
    norm_num [sharpeVariance, jsMean, sumBy, List.foldl]
  have h3 : jsMean [0, 2] = 1 := by norm_num [jsMean, sumBy, List.foldl]
  have h2 : specVar [0, 2] = 1 := by norm_num [specVar, specMean]
  have h4 : specMean [0, 2] = 1 := by norm_num [specMean]
  have hsq2 : Real.sqrt 2 ≠ 0 :=
    ne_of_gt (Real.sqrt_pos.mpr (by norm_num))
  have hL : sharpeRatio [0, 2] = 1 / Real.sqrt 2 * Real.sqrt 12 := by
    simp only [sharpeRatio]
    rw [if_neg hlen, h1, h3]
    rw [show (((2 : ℚ) : ℝ)) = (2 : ℝ) by norm_num,
      show (((1 : ℚ) : ℝ)) = (1 : ℝ) by norm_num, if_neg hsq2]
  have hR : specSharpePop [0, 2] = Real.sqrt 12 := by
    simp only [specSharpePop]
    rw [if_neg hlen, h2, h4]
    rw [show (((1 : ℚ) : ℝ)) = (1 : ℝ) by norm_num, Real.sqrt_one,
      if_neg one_ne_zero]
    norm_num
  rw [hL, hR]
  intro heq
  have h12 : (0 : ℝ) < Real.sqrt 12 := Real.sqrt_pos.mpr (by norm_num)
  have hc : 1 / Real.sqrt 2 = 1 := by
    refine mul_right_cancel₀ (ne_of_gt h12) ?_
    rw [one_mul]
    exact heq
  have h2eq1 : Real.sqrt 2 = 1 := by
    field_simp at hc
    linarith
  have : (2 : ℝ) = 1 := Real.sqrt_eq_one.mp h2eq1
  norm_num at this

/-- C7 (amended): the Sharpe ratio is 0 below two observations, 0 when the
(sample, N−1) standard deviation is 0, and otherwise equals the mean over
the sample standard deviation times √12. -/

theorem sharpe_spec (l : List ℚ) :
    (l.length < 2 → sharpeRatio l = 0) ∧
    (2 ≤ l.length →
      (Real.sqrt ((specSampleVar l : ℚ) : ℝ) = 0 → sharpeRatio l = 0) ∧
      (Real.sqrt ((specSampleVar l : ℚ) : ℝ) ≠ 0 →
        sharpeRatio l
          = ((specMean l : ℚ) : ℝ) / Real.sqrt ((specSampleVar l : ℚ) : ℝ)
            * Real.sqrt 12)) := by
  have hmean : jsMean l = specMean l := by
    rw [jsMean, specMean, sumBy_eq_sum_map, List.map_id]
  have hvar : sharpeVariance l = specSampleVar l := by
    rw [sharpeVariance, specSampleVar, sumBy_eq_sum_map, hmean]
  constructor
  · intro h
    simp only [sharpeRatio]
    rw [if_pos h]
  · intro h2
    have hnlt : ¬ (l.length < 2) := not_lt.mpr h2
    constructor
    · intro hz
      simp only [sharpeRatio]
      rw [if_neg hnlt, hvar, if_pos hz]
    · intro hnz
      simp only [sharpeRatio]
      rw [if_neg hnlt, hvar, if_neg hnz, hmean]

/-- Witness for the amended C7 at the concrete series `[0, 2]`. -/

theorem sharpe_spec_witness :
    sharpeRatio [0, 2]
      = ((specMean [0, 2] : ℚ) : ℝ) / Real.sqrt ((specSampleVar [0, 2] : ℚ) : ℝ)
        * Real.sqrt 12 :=
  ((sharpe_spec [0, 2]).2 (by norm_num)).2 (by
    rw [show specSampleVar [0, 2] = 2 by norm_num [specSampleVar, specMean],
      show (((2 : ℚ) : ℝ)) = (2 : ℝ) by norm_num]
    exact ne_of_gt (Real.sqrt_pos.mpr (by norm_num)))

end Attribution
